import Mathlib

set_option maxRecDepth 16384

/-!
Verification development for the OptiLens chatbot repository.

Shallow embedding of the deterministic pipeline of the repository:
prescription parsing and lens recommendation (src/lib/recommendation.ts),
language detection (src/lib/language.ts), the chat route's stream cleaning,
availability short-circuit and persistence effects (src/app/api/chat/route.ts),
and the message PATCH/DELETE handlers
(src/app/api/chats/[chatId]/messages/[messageId]/route.ts).

JavaScript numbers are modelled as exact rationals; strings as Lean strings
over their character lists.  Regular expressions from the source are embedded
as explicit scanners over character lists with JavaScript word-boundary
semantics (ASCII word characters, since the source regexes do not use the
unicode flag for boundaries).
-/

/-- Space or tab, the character class `[ \t]` used by the whitespace
normalization regexes in route.ts. -/
def isSpTab (c : Char) : Bool := c = ' ' || c = '\t'

/-- JavaScript `\s` / `String.prototype.trim` whitespace set
(WhiteSpace plus LineTerminator code points). -/
def jsWs (c : Char) : Bool :=
  decide (c.toNat = 0x9 ∨ c.toNat = 0xA ∨ c.toNat = 0xB ∨ c.toNat = 0xC ∨
    c.toNat = 0xD ∨ c.toNat = 0x20 ∨ c.toNat = 0xA0 ∨ c.toNat = 0x1680 ∨
    (0x2000 ≤ c.toNat ∧ c.toNat ≤ 0x200A) ∨ c.toNat = 0x2028 ∨
    c.toNat = 0x2029 ∨ c.toNat = 0x202F ∨ c.toNat = 0x205F ∨
    c.toNat = 0x3000 ∨ c.toNat = 0xFEFF)

/-- JavaScript `\w` word character (`[A-Za-z0-9_]`, ASCII only, as in the
source regexes which do not set the unicode flag for `\b`/`\W`). -/
def isWordChar (c : Char) : Bool :=
  decide ((65 ≤ c.toNat ∧ c.toNat ≤ 90) ∨ (97 ≤ c.toNat ∧ c.toNat ≤ 122) ∨
    (48 ≤ c.toNat ∧ c.toNat ≤ 57) ∨ c.toNat = 95)

/-- ASCII decimal digit, the `\d` class. -/
def isDigitChar (c : Char) : Bool := decide (48 ≤ c.toNat ∧ c.toNat ≤ 57)

/-- JavaScript `toLowerCase`, restricted to the code points exercised by this
repository's lexicons: ASCII letters plus the Latin-1 uppercase letters and
the Œ ligature (the accent classes used by language.ts). -/
def jsToLower (c : Char) : Char :=
  if 65 ≤ c.toNat ∧ c.toNat ≤ 90 then Char.ofNat (c.toNat + 32)
  else if 0xC0 ≤ c.toNat ∧ c.toNat ≤ 0xDE ∧ c.toNat ≠ 0xD7 then
    Char.ofNat (c.toNat + 32)
  else if c.toNat = 0x152 then Char.ofNat 0x153
  else c

/-- `\p{Script=Arabic}` membership, modelled by the Unicode Arabic script
blocks (U+FEFF, which is script Common, is excluded). -/
def isArabicChar (c : Char) : Bool :=
  decide ((0x600 ≤ c.toNat ∧ c.toNat ≤ 0x6FF) ∨
    (0x750 ≤ c.toNat ∧ c.toNat ≤ 0x77F) ∨
    (0x870 ≤ c.toNat ∧ c.toNat ≤ 0x89F) ∨
    (0x8A0 ≤ c.toNat ∧ c.toNat ≤ 0x8FF) ∨
    (0xFB50 ≤ c.toNat ∧ c.toNat ≤ 0xFDFF) ∨
    (0xFE70 ≤ c.toNat ∧ c.toNat ≤ 0xFEFE) ∨
    (0x10E60 ≤ c.toNat ∧ c.toNat ≤ 0x10E7F) ∨
    (0x1EE00 ≤ c.toNat ∧ c.toNat ≤ 0x1EEFF))

/-- Cyrillic, Han, Hiragana, Katakana and Hangul script blocks: the removal
set of `filterDisallowedScriptsByLanguage` for `ar`/`dz`. -/
def isCyrHanKanaHangul (c : Char) : Bool :=
  decide ((0x400 ≤ c.toNat ∧ c.toNat ≤ 0x52F) ∨
    (0x1C80 ≤ c.toNat ∧ c.toNat ≤ 0x1C8F) ∨
    (0x2DE0 ≤ c.toNat ∧ c.toNat ≤ 0x2DFF) ∨
    (0xA640 ≤ c.toNat ∧ c.toNat ≤ 0xA69F) ∨
    (0x2E80 ≤ c.toNat ∧ c.toNat ≤ 0x2EF3) ∨
    (0x2F00 ≤ c.toNat ∧ c.toNat ≤ 0x2FD5) ∨
    (0x3400 ≤ c.toNat ∧ c.toNat ≤ 0x4DBF) ∨
    (0x4E00 ≤ c.toNat ∧ c.toNat ≤ 0x9FFF) ∨
    (0xF900 ≤ c.toNat ∧ c.toNat ≤ 0xFAFF) ∨
    (0x20000 ≤ c.toNat ∧ c.toNat ≤ 0x3134A) ∨
    (0x3041 ≤ c.toNat ∧ c.toNat ≤ 0x3096) ∨
    (0x309D ≤ c.toNat ∧ c.toNat ≤ 0x309F) ∨
    (0x30A1 ≤ c.toNat ∧ c.toNat ≤ 0x30FF) ∨
    (0x31F0 ≤ c.toNat ∧ c.toNat ≤ 0x31FF) ∨
    (0xFF66 ≤ c.toNat ∧ c.toNat ≤ 0xFF9D) ∨
    (0x1100 ≤ c.toNat ∧ c.toNat ≤ 0x11FF) ∨
    (0x3130 ≤ c.toNat ∧ c.toNat ≤ 0x318F) ∨
    (0xA960 ≤ c.toNat ∧ c.toNat ≤ 0xA97F) ∨
    (0xAC00 ≤ c.toNat ∧ c.toNat ≤ 0xD7FF))

/-- Match a literal character list at the head of the input, exactly;
returns the remainder on success. -/
def stripLit : List Char → List Char → Option (List Char)
  | [], l => some l
  | _ :: _, [] => none
  | p :: ps, c :: l => if p = c then stripLit ps l else none

/-- Case-insensitive variant of `stripLit` (the `/i` flag). -/
def stripCi : List Char → List Char → Option (List Char)
  | [], l => some l
  | _ :: _, [] => none
  | p :: ps, c :: l => if jsToLower p = jsToLower c then stripCi ps l else none

/-- `String.prototype.includes` on character lists. -/
def hasSubstr (needle : List Char) : List Char → Bool
  | [] => (stripLit needle []).isSome
  | c :: rest => (stripLit needle (c :: rest)).isSome || hasSubstr needle rest

/-- `String.prototype.trim` on character lists. -/
def trimChars (l : List Char) : List Char :=
  ((l.dropWhile jsWs).reverse.dropWhile jsWs).reverse

/-- JavaScript `slice(-n)`: the last `n` elements (all of them when the list
is shorter). -/
def lastN (n : Nat) (l : List α) : List α := l.drop (l.length - n)

/-- `replace(/\s+/g, " ")`: every run of JavaScript whitespace becomes one
space.  The boolean records whether the previous character was whitespace. -/
def wsRunsToSpaceAux : Bool → List Char → List Char
  | _, [] => []
  | prevWs, c :: rest =>
    if jsWs c then
      if prevWs then wsRunsToSpaceAux true rest
      else ' ' :: wsRunsToSpaceAux true rest
    else c :: wsRunsToSpaceAux false rest

def wsRunsToSpace (l : List Char) : List Char := wsRunsToSpaceAux false l

/-! ## Recommendation engine (src/lib/recommendation.ts) -/

structure Prescription where
  sph : Option ℚ
  cyl : Option ℚ
  axis : Option ℚ
deriving DecidableEq

inductive VisualNeed where
  | screen | outdoor | driving | easyClean | premiumClarity
deriving DecidableEq, BEq

inductive Budget where
  | basic | mid | premium
deriving DecidableEq

inductive Coating where
  | AR | HARD | HYDRO | PHOTO | BLUECUT
deriving DecidableEq

structure Recommendation where
  recommendedIndex : Option ℚ
  wantPhotochromic : Bool
  wantBlueCut : Bool
  coatings : List Coating
  rationale : List String
deriving DecidableEq

/-! ### IEEE binary64 arithmetic (exactly the JavaScript number semantics
needed by the cylinder bump, whose comparisons are sensitive to rounding) -/

/-- Fuel-driven `⌊log₂ n⌋` (0 for `n ≤ 1`), kernel-reducible. -/
def natLog2Aux : Nat → Nat → Nat
  | 0, _ => 0
  | fuel + 1, n => if 2 ≤ n then natLog2Aux fuel (n / 2) + 1 else 0

def natLog2 (n : Nat) : Nat := natLog2Aux n n

/-- `2 ^ e` as a rational, for an integer exponent. -/
def pow2z (e : ℤ) : ℚ :=
  if 0 ≤ e then ((2 ^ e.toNat : ℕ) : ℚ) else 1 / ((2 ^ (-e).toNat : ℕ) : ℚ)

/-- `⌊log₂ q⌋` for a positive rational: the unique `e` with
`2 ^ e ≤ q < 2 ^ (e + 1)`. -/
def ratLog2 (q : ℚ) : ℤ :=
  let e0 : ℤ := (natLog2 q.num.toNat : ℤ) - (natLog2 q.den : ℤ)
  if q < pow2z e0 then e0 - 1 else e0

/-- Round a positive rational to the nearest IEEE binary64 value, round
half to even, for inputs inside the binary64 normal range: scale to a
53-bit significand, round, and scale back.  (`m` is positive, so integer
division of numerator by denominator is its floor.) -/
def fp64RoundPos (q : ℚ) : ℚ :=
  let e := ratLog2 q
  let s := pow2z (52 - e)
  let m := q * s
  let fl : ℤ := m.num / (m.den : ℤ)
  let r := m - (fl : ℚ)
  let rounded : ℤ :=
    if r < 1/2 then fl
    else if 1/2 < r then fl + 1
    else if fl % 2 = 0 then fl else fl + 1
  (rounded : ℚ) / s

/-- The binary64 (JavaScript number) value nearest to an exact rational. -/
def fp64Round (q : ℚ) : ℚ :=
  if q = 0 then 0 else if q < 0 then -fp64RoundPos (-q) else fp64RoundPos q

/-- IEEE binary64 addition of two binary64 values: exact sum, then round
to the nearest binary64. -/
def fp64Add (a b : ℚ) : ℚ := fp64Round (a + b)

/-- `clampIndex` from recommendation.ts.  The source compares JavaScript
numbers, so the thresholds are the binary64 values of the literals `1.5`,
`1.56`, `1.6` and `1.67` (the double of `1.67` lies slightly below
167/100); the returned index literals are denoted by their exact decimal
values, as everywhere in this embedding. -/
def clampIndex (idx : ℚ) : ℚ :=
  if idx ≤ fp64Round (3/2) then 3/2
  else if idx ≤ fp64Round (39/25) then 39/25
  else if idx ≤ fp64Round (8/5) then 8/5
  else if idx ≤ fp64Round (167/100) then 167/100
  else 87/50

/-- The inline power-to-index range map of `recommendFromInputs`
(maxPower ≤ 2 → 1.5, ≤ 3.5 → 1.56, ≤ 6 → 1.6, ≤ 8 → 1.67, else 1.74). -/
def rangeIndex (maxPower : ℚ) : ℚ :=
  if maxPower ≤ 2 then 3/2
  else if maxPower ≤ 7/2 then 39/25
  else if maxPower ≤ 6 then 8/5
  else if maxPower ≤ 8 then 167/100
  else 87/50

/-- The cylinder bump `clampIndex(recommendedIndex + 0.07)` as executed in
binary64: the index literal and `0.07` are taken at their binary64 values
and added with IEEE rounding before clamping.  In binary64,
`1.6 + 0.07 = 1.6700000000000002` exceeds the double of `1.67`, so the
`1.6` band bumps to `1.74`; the table is `1.5 ↦ 1.6`, `1.56 ↦ 1.67`,
`1.6 ↦ 1.74`, `1.67 ↦ 1.74`, `1.74 ↦ 1.74`. -/
def bump64 (ri : ℚ) : ℚ :=
  clampIndex (fp64Add (fp64Round ri) (fp64Round (7/100)))

/-- The five standard index values (as the decimal values of the source's
literals). -/
def idx5 : List ℚ := [3/2, 39/25, 8/5, 167/100, 87/50]

/-- Position of a standard index in the ladder 1.5, 1.56, 1.6, 1.67, 1.74. -/
def stepPos (i : ℚ) : Nat :=
  if i = 3/2 then 0
  else if i = 39/25 then 1
  else if i = 8/5 then 2
  else if i = 167/100 then 3
  else 4

def pad2 (n : Nat) : String := if n < 10 then "0" ++ toString n else toString n

def toFixed2Nat (m : Nat) : String :=
  toString (m / 100) ++ "." ++ pad2 (m % 100)

/-- JavaScript `Number.prototype.toFixed(2)` on exact rationals
(round to nearest, ties to the larger value). -/
def toFixed2 (q : ℚ) : String :=
  let n : ℤ := Int.floor (q * 100 + 1/2)
  if n < 0 then "-" ++ toFixed2Nat n.natAbs else toFixed2Nat n.toNat

def rationaleAR : String :=
  "Antireflet (AR) pour réduire les reflets et améliorer le contraste."
def rationaleHard : String := "Durci pour limiter les micro-rayures."
def rationaleHydro : String :=
  "Hydrophobe pour faciliter le nettoyage et limiter les traces."
def rationaleBlue : String :=
  "Blue Cut si usage écrans important (confort subjectif). "
def rationalePhoto : String :=
  "Photochromique si alternance intérieur/extérieur; utile aussi dehors. En voiture, choisir une techno optimisée pare-brise."
def rationaleCyl : String :=
  "Cylindre élevé: on privilégie souvent une meilleure finesse (indice supérieur) et/ou asphérique."
def rationaleBasic : String :=
  "Budget basique: on privilégie l’essentiel (AR + durci), et on propose des options si besoin."
def rationalePremium : String :=
  "Budget premium: on privilégie des gammes premium et traitements complets."

def indexRationale (maxPower : ℚ) : String :=
  "Indice recommandé basé sur la puissance max (~" ++ toFixed2 maxPower ++ "D)."

/-- The rationale lines appended by the budget branch at the end of
`recommendFromInputs`. -/
def budgetNote : Option Budget → List String
  | some .basic => [rationaleBasic]
  | some .premium => [rationalePremium]
  | _ => []

/-- `recommendFromInputs` from recommendation.ts.  The dead `?? 1.6`
fallback on the already-assigned index variable is dropped.  The cylinder
bump `clampIndex(recommendedIndex + 0.07)` is computed in binary64
(`bump64`), as the source's comparisons there are sensitive to IEEE
rounding; all other arithmetic of this function is exact on the inputs the
claims exercise. -/
def recommendFromInputs (prescription : Option Prescription)
    (needs : List VisualNeed) (budget : Option Budget) : Recommendation :=
  let wantBlueCut := needs.contains .screen
  let wantPhotochromic := needs.contains .outdoor || needs.contains .driving
  let coatings :=
    [Coating.AR, Coating.HARD, Coating.HYDRO] ++
      (if wantBlueCut then [Coating.BLUECUT] else []) ++
      (if wantPhotochromic then [Coating.PHOTO] else [])
  let rationale0 :=
    [rationaleAR, rationaleHard, rationaleHydro] ++
      (if wantBlueCut then [rationaleBlue] else []) ++
      (if wantPhotochromic then [rationalePhoto] else [])
  let idxRat : Option ℚ × List String :=
    match prescription with
    | some p =>
      if p.sph.isSome || p.cyl.isSome then
        let sph := p.sph.getD 0
        let cyl := p.cyl.getD 0
        let p1 := |sph|
        let p2 := |sph + cyl|
        let maxPower := max p1 p2
        let ri := rangeIndex maxPower
        let rat := rationale0 ++ [indexRationale maxPower]
        if 2 ≤ |cyl| then
          let bumped := bump64 ri
          if bumped ≠ ri then (some bumped, rat ++ [rationaleCyl])
          else (some ri, rat)
        else (some ri, rat)
      else (none, rationale0)
    | none => (none, rationale0)
  { recommendedIndex := idxRat.1
    wantPhotochromic := wantPhotochromic
    wantBlueCut := wantBlueCut
    coatings := coatings
    rationale := idxRat.2 ++ budgetNote budget }

/-! ## Prescription parser (src/lib/recommendation.ts, parsePrescription) -/

/-- Parse `\d+` at the head: greedy digit run as a natural number together
with the count of digits consumed; fails on zero digits. -/
def parseDigits : List Char → Option (Nat × Nat × List Char)
  | [] => none
  | c :: rest =>
    if isDigitChar c then
      match parseDigits rest with
      | some (v, k, r) => some ((c.toNat - 48) * 10 ^ k + v, k + 1, r)
      | none => some (c.toNat - 48, 1, rest)
    else none

/-- Parse `[+-]?\d+(?:\.\d+)?` at the head of the input, returning the value
as an exact rational. -/
def parseSignedDec (l : List Char) : Option ℚ :=
  let (sign, l1) : ℚ × List Char :=
    match l with
    | '+' :: r => (1, r)
    | '-' :: r => (-1, r)
    | _ => (1, l)
  match parseDigits l1 with
  | none => none
  | some (intPart, _, r1) =>
    match r1 with
    | '.' :: r2 =>
      match parseDigits r2 with
      | some (fracPart, k, _) =>
        some (sign * ((intPart : ℚ) + (fracPart : ℚ) / 10 ^ k))
      | none => some (sign * (intPart : ℚ))
    | _ => some (sign * (intPart : ℚ))

/-- `\s*[:=]?\s*` then `[+-]?\d+(?:\.\d+)?`. -/
def parseSepNum (l : List Char) : Option ℚ :=
  let r1 := l.dropWhile jsWs
  let r2 := match r1 with
    | ':' :: r => r
    | '=' :: r => r
    | _ => r1
  parseSignedDec (r2.dropWhile jsWs)

def headIsWord : List Char → Bool
  | [] => false
  | c :: _ => isWordChar c

/-- Try `\bKEY\b\s*[:=]?\s*(num)` at this position; `prevW` tells whether the
preceding character is a word character (for `\b`). -/
def keyNumAt (key : List Char) (prevW : Bool) (l : List Char) : Option ℚ :=
  if prevW then none
  else match stripCi key l with
    | none => none
    | some rest => if headIsWord rest then none else parseSepNum rest

/-- Scan the whole input for the first position where the matcher succeeds,
mirroring `RegExp.prototype.exec`'s leftmost-match rule. -/
def scanKeyNum (key : List Char) : Bool → List Char → Option ℚ
  | prevW, [] => keyNumAt key prevW []
  | prevW, c :: rest =>
    match keyNumAt key prevW (c :: rest) with
    | some v => some v
    | none => scanKeyNum key (isWordChar c) rest

/-- `(\d{1,3})`: up to three digits, greedy, at least one. -/
def parseUpTo3Digits (l : List Char) : Option ℚ :=
  match l with
  | a :: rest =>
    if isDigitChar a then
      match rest with
      | b :: rest2 =>
        if isDigitChar b then
          match rest2 with
          | c :: _ =>
            if isDigitChar c then
              some (((a.toNat - 48) * 100 + (b.toNat - 48) * 10 +
                (c.toNat - 48) : Nat) : ℚ)
            else some (((a.toNat - 48) * 10 + (b.toNat - 48) : Nat) : ℚ)
          | [] => some (((a.toNat - 48) * 10 + (b.toNat - 48) : Nat) : ℚ)
        else some ((a.toNat - 48 : Nat) : ℚ)
      | [] => some ((a.toNat - 48 : Nat) : ℚ)
    else none
  | [] => none

/-- `\s*[:=]?\s*(\d{1,3})`. -/
def parseSepAxisNum (l : List Char) : Option ℚ :=
  let r1 := l.dropWhile jsWs
  let r2 := match r1 with
    | ':' :: r => r
    | '=' :: r => r
    | _ => r1
  parseUpTo3Digits (r2.dropWhile jsWs)

/-- Try `(?:\bAX(?:IS)?\b|\baxe\b)\s*[:=]?\s*(\d{1,3})` at this position.
The `IS` option is tried greedily first, then dropped, as the regex engine
backtracks. -/
def axisAt (prevW : Bool) (l : List Char) : Option ℚ :=
  if prevW then none
  else
    let alt1 :=
      match stripCi ['a', 'x'] l with
      | none => none
      | some rest0 =>
        match stripCi ['i', 's'] rest0 with
        | some rest1 =>
          if !headIsWord rest1 then parseSepAxisNum rest1
          else if !headIsWord rest0 then parseSepAxisNum rest0
          else none
        | none =>
          if !headIsWord rest0 then parseSepAxisNum rest0 else none
    match alt1 with
    | some v => some v
    | none =>
      match stripCi ['a', 'x', 'e'] l with
      | none => none
      | some rest => if headIsWord rest then none else parseSepAxisNum rest

def scanAxis : Bool → List Char → Option ℚ
  | prevW, [] => axisAt prevW []
  | prevW, c :: rest =>
    match axisAt prevW (c :: rest) with
    | some v => some v
    | none => scanAxis (isWordChar c) rest

/-- `parsePrescription` from recommendation.ts: normalize commas to periods,
collapse whitespace, trim, then extract SPH, CYL and AXIS independently.
The `Number.isFinite` guards are identities here since the scanners only
produce finite rationals. -/
def parsePrescription (text : String) : Option Prescription :=
  let normalized :=
    trimChars (wsRunsToSpace (text.data.map (fun c => if c = ',' then '.' else c)))
  let sph := scanKeyNum ['s', 'p', 'h'] false normalized
  let cyl := scanKeyNum ['c', 'y', 'l'] false normalized
  let axis := scanAxis false normalized
  if sph.isNone ∧ cyl.isNone ∧ axis.isNone then none
  else some { sph := sph, cyl := cyl, axis := axis }

/-! ## Language detector (src/lib/language.ts) -/

inductive SupportedLanguage where
  | fr | en | ar | dz
deriving DecidableEq

inductive LDConfidence where
  | high | medium | low
deriving DecidableEq

structure LanguageDetection where
  lang : SupportedLanguage
  confidence : LDConfidence
deriving DecidableEq

def darjaHints : List String :=
  ["wesh", "wach", "sahbi", "sahbiya", "chhal", "ch7al", "bezzaf", "mlih",
   "mliha", "kifach", "win", "rani", "rak", "rana", "khoya", "khouya",
   "brk", "bzzf"]

/-- The entry `s'il` of FRENCH_HINT_WORDS, built from code points. -/
def sIlWord : String := String.mk ['s', Char.ofNat 39, 'i', 'l']

def frenchHintWords : List String :=
  ["bonjour", "salut", "bonsoir", "merci", "svp", sIlWord, "sil", "vous",
   "stp", "je", "tu", "il", "elle", "on", "nous", "vous", "ils", "elles",
   "mon", "ma", "mes", "ton", "ta", "tes", "notre", "votre", "pour", "avec",
   "sans", "dans", "sur", "chez", "de", "des", "du", "la", "le", "les",
   "un", "une", "et", "ou", "mais", "donc", "car", "verre", "verres",
   "lentille", "lentilles", "antireflet", "anti-reflet", "photochromique",
   "progressif", "progressifs", "traitement", "traitements", "monture",
   "ordonnance", "cyl", "sph", "axe"]

def englishHintWords : List String :=
  ["hello", "hi", "thanks", "please", "what", "how", "which", "price",
   "cost", "available", "availability", "in stock", "lens", "lenses",
   "coating", "coatings", "prescription", "progressive"]

/-- The accent class `[éèêàùçœ]` with the `/i` flag (uppercase forms
included by regex canonicalization). -/
def isFrAccent (c : Char) : Bool :=
  c ∈ ['é', 'è', 'ê', 'à', 'ù', 'ç', 'œ', 'É', 'È', 'Ê', 'À', 'Ù', 'Ç', 'Œ']

/-- One position of the short-word pattern `(^|\W)w(\W|$)` with `/i`:
the word at this position, preceded by start-or-non-word and followed by
non-word-or-end. -/
def shortWordAt (w : List Char) (prev : Option Char) (l : List Char) : Bool :=
  (match prev with
   | none => true
   | some p => !isWordChar p) &&
  (match stripCi w l with
   | some rest =>
     match rest with
     | [] => true
     | c :: _ => !isWordChar c
   | none => false)

def shortWordHit (w : List Char) : Option Char → List Char → Bool
  | prev, [] => shortWordAt w prev []
  | prev, c :: rest => shortWordAt w prev (c :: rest) || shortWordHit w (some c) rest

/-- `countWordHits` from language.ts: whole-token matching for words of
length ≤ 3, substring matching for longer words. -/
def countWordHits (lower : List Char) (words : List String) : Nat :=
  words.foldl
    (fun hits wstr =>
      let w := wstr.data
      if w = [] then hits
      else if w.length ≤ 3 then
        if shortWordHit w none lower then hits + 1 else hits
      else if hasSubstr w lower then hits + 1 else hits)
    0

/-- `detectLanguageInfo` after the initial trim. -/
def detectCore (t : List Char) : LanguageDetection :=
  if t = [] then ⟨.fr, .low⟩
  else if t.any isArabicChar then ⟨.ar, .high⟩
  else
    let lower := t.map jsToLower
    if darjaHints.any (fun w => hasSubstr w.data lower) then ⟨.dz, .medium⟩
    else if t.any isFrAccent then ⟨.fr, .high⟩
    else
      let frScore := countWordHits lower frenchHintWords
      let enScore := countWordHits lower englishHintWords
      if frScore = 0 ∧ enScore = 0 then ⟨.fr, .low⟩
      else
        let diff := max frScore enScore - min frScore enScore
        let confidence : LDConfidence :=
          if 3 ≤ diff then .high else if 1 ≤ diff then .medium else .low
        if enScore ≤ frScore then ⟨.fr, confidence⟩ else ⟨.en, confidence⟩

/-- `detectLanguageInfo` from language.ts. -/
def detectLanguageInfo (text : String) : LanguageDetection :=
  detectCore (trimChars text.data)

/-- `detectLanguage` from language.ts. -/
def detectLanguage (text : String) : SupportedLanguage :=
  (detectLanguageInfo text).lang

/-! ## Response stream processing (src/app/api/chat/route.ts) -/

/-- Remove every (leftmost, non-overlapping) occurrence of the literal
`pat` from the input, as `replace(/pat/g, "")` does for a literal pattern.
The fuel argument starts at the input length; patterns are non-empty so the
input shrinks at every removal. -/
def removeAllAux (pat : List Char) : Nat → List Char → List Char
  | _, [] => []
  | 0, l => l
  | fuel + 1, c :: rest =>
    match stripLit pat (c :: rest) with
    | some r => removeAllAux pat fuel r
    | none => c :: removeAllAux pat fuel rest

def removeAll (pat : List Char) (l : List Char) : List Char :=
  removeAllAux pat l.length l

/-- `sanitizeAssistantChunk` from route.ts: strip chat-template protocol
tokens, NUL bytes and carriage returns, leaving all other characters (in
particular whitespace) untouched. -/
def sanitizeAssistantChunk (text : String) : String :=
  let l0 := text.data
  let l1 := removeAll "<|im_start|>".data l0
  let l2 := removeAll "<|im_end|>".data l1
  let l3 := removeAll "<|assistant|>".data l2
  let l4 := removeAll "<|user|>".data l3
  let l5 := removeAll "<|system|>".data l4
  let l6 := removeAll "<|endoftext|>".data l5
  let l7 := l6.filter (fun c => c ≠ Char.ofNat 0)
  ⟨l7.filter (fun c => c ≠ '\r')⟩

/-- `filterDisallowedScriptsByLanguage` from route.ts: for `ar`/`dz` strip
Cyrillic/CJK/Hangul; for `fr`/`en` additionally strip Arabic script. -/
def filterDisallowedScriptsByLanguage (text : String) (lang : SupportedLanguage) : String :=
  match lang with
  | .ar | .dz => ⟨text.data.filter (fun c => !isCyrHanKanaHangul c)⟩
  | .fr | .en =>
    ⟨text.data.filter (fun c => !(isCyrHanKanaHangul c || isArabicChar c))⟩

/-- First pass of `normalizeWhitespaceAfterFiltering`:
`replace(/[ \t]{2,}/g, " ")`.  A run of two or more spaces/tabs becomes a
single space; a lone space or tab is kept as is.  The boolean is true while
skipping the tail of a run already replaced. -/
def collapseSpTabAux : Bool → List Char → List Char
  | _, [] => []
  | true, c :: rest =>
    if isSpTab c then collapseSpTabAux true rest
    else c :: collapseSpTabAux false rest
  | false, c :: rest =>
    if isSpTab c then
      match rest with
      | [] => [c]
      | d :: _ =>
        if isSpTab d then ' ' :: collapseSpTabAux true rest
        else c :: collapseSpTabAux false rest
    else c :: collapseSpTabAux false rest

def collapseSpTab (l : List Char) : List Char := collapseSpTabAux false l

/-- Is the input a (possibly empty) run of spaces/tabs followed by a
newline?  Lookahead for the second pass. -/
def nextIsNl : List Char → Bool
  | [] => false
  | d :: r => if d = '\n' then true else if isSpTab d then nextIsNl r else false

/-- Second pass: `replace(/[ \t]+\n/g, "\n")` — drop spaces/tabs that sit
directly (through further spaces/tabs) before a newline. -/
def stripSpTabBeforeNl : List Char → List Char
  | [] => []
  | c :: rest =>
    if isSpTab c && nextIsNl rest then stripSpTabBeforeNl rest
    else c :: stripSpTabBeforeNl rest

/-- Third pass: `replace(/\n{4,}/g, "\n\n\n")` — cap every newline run at
three.  The counter is the number of newlines of the current run already
emitted. -/
def capNlAux : Nat → List Char → List Char
  | _, [] => []
  | k, c :: rest =>
    if c = '\n' then
      if k < 3 then c :: capNlAux (k + 1) rest
      else capNlAux k rest
    else c :: capNlAux 0 rest

/-- `normalizeWhitespaceAfterFiltering` from route.ts. -/
def normalizeWhitespaceAfterFiltering (text : String) : String :=
  ⟨capNlAux 0 (stripSpTabBeforeNl (collapseSpTab text.data))⟩

/-- `postProcessAssistantText` from route.ts (final, persisted text). -/
def postProcessAssistantText (text : String) (lang : SupportedLanguage) : String :=
  ⟨trimChars (normalizeWhitespaceAfterFiltering
    (filterDisallowedScriptsByLanguage (sanitizeAssistantChunk text) lang)).data⟩

/-- `postProcessAssistantChunk` from route.ts (per streamed fragment; no
trim). -/
def postProcessAssistantChunk (text : String) (lang : SupportedLanguage) : String :=
  normalizeWhitespaceAfterFiltering
    (filterDisallowedScriptsByLanguage (sanitizeAssistantChunk text) lang)

/-! ## Availability / quantity question detection (route.ts) -/

/-- Tiny pattern language for the source's regexes: literals (`/i`),
whitespace (`\s+` / `\s*`), optional characters, character classes,
two-way literal alternation and the `\b` assertion. -/
inductive Pat where
  | lit (s : String)
  | ws1
  | ws0
  | opt (c : Char)
  | oneOf (cs : List Char)
  | alt2 (a b : String)
  | wb

def headIsWordB : List Char → Bool
  | [] => false
  | c :: _ => isWordChar c

def lastIsWordStr (s : String) : Bool :=
  match s.data.getLast? with
  | some c => isWordChar c
  | none => false

/-- Match a pattern sequence at the head of the input.  `prevW` records
whether the character just before the current position is a word character
(for `\b`).  Returns the updated flag and the remainder. -/
def matchPats : List Pat → Bool → List Char → Option (Bool × List Char)
  | [], prevW, l => some (prevW, l)
  | .wb :: ps, prevW, l =>
    if prevW != headIsWordB l then matchPats ps prevW l else none
  | .lit s :: ps, _, l =>
    match stripCi s.data l with
    | some rest => matchPats ps (lastIsWordStr s) rest
    | none => none
  | .ws1 :: ps, _, l =>
    match l with
    | c :: r => if jsWs c then matchPats ps false (r.dropWhile jsWs) else none
    | [] => none
  | .ws0 :: ps, prevW, l =>
    match l with
    | c :: r =>
      if jsWs c then matchPats ps false (r.dropWhile jsWs)
      else matchPats ps prevW (c :: r)
    | [] => matchPats ps prevW []
  | .opt c :: ps, prevW, l =>
    match l with
    | d :: r =>
      if jsToLower d = jsToLower c then matchPats ps (isWordChar c) r
      else matchPats ps prevW (d :: r)
    | [] => matchPats ps prevW []
  | .oneOf cs :: ps, _, l =>
    match l with
    | d :: r =>
      if cs.any (fun c => jsToLower d = jsToLower c) then
        matchPats ps (isWordChar d) r
      else none
    | [] => none
  | .alt2 a b :: ps, _, l =>
    match stripCi a.data l with
    | some rest => matchPats ps (lastIsWordStr a) rest
    | none =>
      match stripCi b.data l with
      | some rest => matchPats ps (lastIsWordStr b) rest
      | none => none

/-- `RegExp.prototype.test` for an alternation of pattern sequences: try
every alternative at every position. -/
def rxAux (alts : List (List Pat)) : Bool → List Char → Bool
  | prevW, [] => alts.any (fun a => (matchPats a prevW []).isSome)
  | prevW, c :: r =>
    alts.any (fun a => (matchPats a prevW (c :: r)).isSome) ||
      rxAux alts (isWordChar c) r

def rxTest (alts : List (List Pat)) (t : List Char) : Bool := rxAux alts false t

/-- The four JavaScript line terminators excluded by `.` (no `s` flag). -/
def isJsLineTerm (c : Char) : Bool :=
  c.toNat = 0xA || c.toNat = 0xD || c.toNat = 0x2028 || c.toNat = 0x2029

/-- The alternative `\bcombien\b.*\b(avez|as|a|ont)\b` of the quantity
regex: `combien` followed, with no line terminator in between, by one of
the verb tokens. -/
def combienThenVerbAux : Bool → List Char → Bool
  | _, [] => false
  | prevW, c :: r =>
    (match matchPats [.wb, .lit "combien", .wb] prevW (c :: r) with
     | some (pW, rest) =>
       rxAux [[.wb, .lit "avez", .wb], [.wb, .lit "as", .wb],
              [.wb, .lit "a", .wb], [.wb, .lit "ont", .wb]]
         pW (rest.takeWhile (fun ch => !isJsLineTerm ch))
     | none => false) ||
      combienThenVerbAux (isWordChar c) r

def combienThenVerb (t : List Char) : Bool := combienThenVerbAux false t

/-- Alternatives of the interrogative-phrasing regex in
`getAvailabilityQuestionType`. -/
def interrogAlts : List (List Pat) :=
  [[.wb, .lit "est", .opt '-', .lit "ce", .ws1, .lit "que", .wb],
   [.wb, .lit "avez", .opt '-', .lit "vous", .wb],
   [.wb, .lit "vous", .ws1, .lit "avez", .wb],
   [.wb, .lit "do", .ws1, .lit "you", .ws1, .lit "have", .wb],
   [.wb, .lit "is", .ws1, .lit "it", .wb],
   [.wb, .lit "are", .ws1, .lit "they", .wb],
   [.wb, .lit "how", .ws1, .lit "many", .wb],
   [.wb, .lit "can", .ws1, .lit "you", .wb],
   [.wb, .lit "هل", .wb]]

/-- Alternatives of the short-message availability regex. -/
def shortAvailAlts : List (List Pat) :=
  [[.wb, .lit "stock", .wb],
   [.wb, .lit "en", .ws1, .lit "stock", .wb],
   [.wb, .lit "disponible", .wb],
   [.wb, .lit "availability", .wb],
   [.wb, .lit "available", .wb],
   [.lit "متوفر"],
   [.lit "موجود"]]

/-- Alternatives of the quantity regex (the `combien.*verb` alternative is
handled by `combienThenVerb`). -/
def quantityAlts : List (List Pat) :=
  [[.wb, .lit "quantit", .oneOf ['e', 'é'], .wb],
   [.wb, .lit "quantity", .wb],
   [.wb, .lit "combien", .ws1, .lit "en", .ws1, .lit "stock", .wb],
   [.wb, .lit "how", .ws1, .lit "many", .wb],
   [.wb, .lit "qty", .wb],
   [.wb, .lit "qte", .wb],
   [.wb, .lit "ch7al", .wb],
   [.wb, .lit "chhal", .wb],
   [.lit "كم", .ws0, .alt2 "عندكم" "لديكم"],
   [.lit "الكمية"],
   [.lit "كمية"],
   [.lit "كم", .ws0, .opt '(', .lit "الكمية", .opt ')']]

/-- Alternatives of the availability regex. -/
def availabilityAlts : List (List Pat) :=
  [[.wb, .lit "available", .wb],
   [.wb, .lit "availability", .wb],
   [.wb, .lit "disponible", .wb],
   [.wb, .lit "disponibilit", .oneOf ['e', 'é'], .wb],
   [.wb, .lit "en stock", .wb],
   [.wb, .lit "stock", .wb],
   [.wb, .lit "in store", .wb],
   [.wb, .lit "in", .ws1, .lit "shop", .wb],
   [.lit "متوفر"],
   [.lit "موجود"],
   [.lit "التوفر"],
   [.wb, .lit "المحل", .wb],
   [.wb, .lit "في", .ws0, .lit "المحل", .wb]]

/-- The Arabic price words checked before quantity/availability
classification (`سعر`, `ثمن`, `بكم` as plain substrings). -/
def arPriceWords : List String := ["سعر", "ثمن", "بكم"]

inductive AvailabilityQuestionType where
  | availability | quantity
deriving DecidableEq

/-- `getAvailabilityQuestionType` from route.ts. -/
def getAvailabilityQuestionType (text : String) : Option AvailabilityQuestionType :=
  let t := trimChars text.data
  if t = [] then none
  else
    let isQuestionLike :=
      t.any (fun c => c = '?' || c = '؟') ||
      rxTest interrogAlts t ||
      (let short := trimChars (wsRunsToSpace (t.map jsToLower))
       decide (short.length ≤ 20) && rxTest shortAvailAlts short)
    if !isQuestionLike then none
    else if arPriceWords.any (fun w => hasSubstr w.data t) then none
    else if rxTest quantityAlts t || combienThenVerb t then some .quantity
    else if rxTest availabilityAlts t then some .availability
    else none

/-! ## Conversation state: turn effects, history, message edit/delete -/

inductive Role where
  | user | assistant | system
deriving DecidableEq

/-- A persisted chat message as selected by the chat route
(`role`, `content`). -/
structure StoredMsg where
  role : Role
  content : String
deriving DecidableEq

/-- The history passed to the provider, built from the fetched messages:
`recent.filter(m => m.role !== "system").map(...).slice(-12)` (the map to
the provider message shape is field-preserving). -/
def buildLlmHistory (recent : List StoredMsg) : List StoredMsg :=
  lastN 12 (recent.filter (fun m => m.role ≠ .system))

/-- What the route sends for a session whose persisted messages, in
ascending `createdAt` order, are `msgs`: the Prisma query
`findMany({orderBy: {createdAt: "asc"}, take: 14})` returns the first 14
rows of that ascending order. -/
def historySentForSession (msgs : List StoredMsg) : List StoredMsg :=
  buildLlmHistory (msgs.take 14)

/-- `compactTitleFromUserText` from route.ts. -/
def compactTitleFromUserText (text : String) : String :=
  let cleaned : String := ⟨trimChars (wsRunsToSpace text.data)⟩
  if cleaned = "" then "Nouveau chat"
  else
    let words := " ".intercalate ((cleaned.splitOn " ").take 7)
    if words.length > 80 then ⟨words.data.take 77⟩ ++ "..." else words

/-- Serialized code of a language, used as the stored memory value
(`value: lang`). -/
def langCode : SupportedLanguage → String
  | .fr => "fr"
  | .en => "en"
  | .ar => "ar"
  | .dz => "dz"

/-- A value stored in the memory table.  The language fact stores the
language code; the prescription fact stores `JSON.stringify(prescription)`,
kept structured here. -/
inductive MemVal where
  | langVal (code : String)
  | presVal (p : Prescription)
deriving DecidableEq

/-- A database write performed by one chat turn (message contents are
abstracted; reads are omitted). -/
inductive DbEffect where
  | createSession (title : String) (language : SupportedLanguage)
  | createMessage (role : Role)
  | upsertMemory (scope : String) (key : String) (value : MemVal)
  | updateSession
deriving DecidableEq

def isMemUpsert : DbEffect → Bool
  | .upsertMemory _ _ _ => true
  | _ => false

/-- The sequence of database writes performed by the POST chat handler for
one turn, in program order: ensure a session, persist the user message,
then either the deterministic availability/quantity short-circuit (persist
the deterministic assistant answer and update the session, returning before
any memory write) or the generative path (memory upserts, then the
assistant message and session update after generation). -/
def turnEffects (chatId : Option String) (userText : String)
    (lang : SupportedLanguage) : List DbEffect :=
  let sessionFx : List DbEffect :=
    match chatId with
    | none => [.createSession (compactTitleFromUserText userText) lang]
    | some _ => []
  let cid := chatId.getD "new-session"
  sessionFx ++ [DbEffect.createMessage .user] ++
    (match getAvailabilityQuestionType userText with
     | some _ => [DbEffect.createMessage .assistant, DbEffect.updateSession]
     | none =>
       [DbEffect.upsertMemory "global" "lastLanguage" (.langVal (langCode lang))] ++
         (match parsePrescription userText with
          | some p =>
            [DbEffect.upsertMemory ("chat:" ++ cid) "prescription" (.presVal p)]
          | none => []) ++
         [DbEffect.createMessage .assistant, DbEffect.updateSession])

/-! ## Message PATCH / DELETE (src/app/api/chats/.../route.ts) -/

/-- A stored message row with its identifiers. -/
structure MsgRec where
  id : String
  chatId : String
  role : Role
  content : String
deriving DecidableEq

inductive EditOutcome where
  | ok | mismatch | notFound
deriving DecidableEq

/-- The PATCH handler: `prisma.chatMessage.update({where: {id}})` mutates
the row looked up by id alone; the chat-ownership comparison happens only
afterwards, on the updated row.  Returns the outcome and the resulting
database state. -/
def patchMessage (db : List MsgRec) (chatId messageId newContent : String) :
    EditOutcome × List MsgRec :=
  match db.find? (fun m => m.id == messageId) with
  | none => (.notFound, db)
  | some m =>
    let db2 := db.map (fun r =>
      if r.id == messageId then { r with content := newContent } else r)
    if m.chatId == chatId then (.ok, db2) else (.mismatch, db2)

/-- The DELETE handler: `prisma.chatMessage.delete({where: {id}})` removes
the row looked up by id alone; the chat-ownership comparison happens only
afterwards, on the deleted row's data. -/
def deleteMessage (db : List MsgRec) (chatId messageId : String) :
    EditOutcome × List MsgRec :=
  match db.find? (fun m => m.id == messageId) with
  | none => (.notFound, db)
  | some m =>
    let db2 := db.filter (fun r => !(r.id == messageId))
    if m.chatId == chatId then (.ok, db2) else (.mismatch, db2)

/-! ## Whitespace normal form (for the stream-cleaning analysis) -/

def headSpTab : List Char → Bool
  | [] => false
  | c :: _ => isSpTab c

def headNl : List Char → Bool
  | [] => false
  | c :: _ => c = '\n'

/-- Two adjacent spaces/tabs occur somewhere. -/
def hasDoubleSpTab : List Char → Bool
  | [] => false
  | c :: rest => (isSpTab c && headSpTab rest) || hasDoubleSpTab rest

/-- A space/tab sits immediately before a newline somewhere. -/
def hasSpTabBeforeNl : List Char → Bool
  | [] => false
  | c :: rest => (isSpTab c && headNl rest) || hasSpTabBeforeNl rest

def startsWith3Nl : List Char → Bool
  | a :: b :: c :: _ => a = '\n' && b = '\n' && c = '\n'
  | _ => false

/-- Four consecutive newlines occur somewhere. -/
def hasNlRun4 : List Char → Bool
  | [] => false
  | c :: rest => (c = '\n' && startsWith3Nl rest) || hasNlRun4 rest

/-- Length of the leading newline run. -/
def leadingNl : List Char → Nat
  | [] => 0
  | c :: rest => if c = '\n' then leadingNl rest + 1 else 0

/-- A string is in whitespace normal form when it has no run of two or more
spaces/tabs, no space/tab directly before a newline, and no run of four or
more newlines — exactly the patterns rewritten by
`normalizeWhitespaceAfterFiltering`. -/
def wsNormalized (s : String) : Prop :=
  hasDoubleSpTab s.data = false ∧ hasSpTabBeforeNl s.data = false ∧
    hasNlRun4 s.data = false

/-- A session timeline of fifteen persisted user messages with distinct
contents, used to exercise the history bound. -/
def fifteenUserMsgs : List StoredMsg :=
  (List.range 15).map (fun i => ⟨.user, toString i⟩)

/-! ## Helper lemmas -/

theorem recommend_index_eq (s c : ℚ) (ax : Option ℚ) (needs : List VisualNeed)
    (budget : Option Budget) :
    (recommendFromInputs (some ⟨some s, some c, ax⟩) needs budget).recommendedIndex =
      some (if 2 ≤ |c| then bump64 (rangeIndex (max |s| |s + c|))
            else rangeIndex (max |s| |s + c|)) := by
  unfold recommendFromInputs
  simp only [Option.isSome_some, Bool.true_or, if_true, Option.getD_some]
  split_ifs <;> simp_all

theorem rangeIndex_mono {a b : ℚ} (h : a ≤ b) : rangeIndex a ≤ rangeIndex b := by
  unfold rangeIndex
  split_ifs <;> linarith

theorem rangeIndex_mem5 (m : ℚ) : rangeIndex m ∈ idx5 := by
  unfold rangeIndex idx5
  split_ifs <;> simp

theorem bump64_mono5 : ∀ a ∈ idx5, ∀ b ∈ idx5, a ≤ b → bump64 a ≤ bump64 b := by
  with_unfolding_all decide

theorem maxPower_same_sign {s c : ℚ} (h : 0 ≤ s * c) :
    max |s| |s + c| = |s| + |c| := by
  rcases mul_nonneg_iff.mp h with ⟨hs, hc⟩ | ⟨hs, hc⟩
  · rw [abs_of_nonneg hs, abs_of_nonneg hc, abs_of_nonneg (by linarith : (0:ℚ) ≤ s + c)]
    exact max_eq_right (by linarith)
  · rw [abs_of_nonpos hs, abs_of_nonpos hc, abs_of_nonpos (by linarith : s + c ≤ 0)]
    rw [max_eq_right (by linarith)]
    ring

theorem rangeIndex_cases (m : ℚ) :
    rangeIndex m = 3/2 ∨ rangeIndex m = 39/25 ∨ rangeIndex m = 8/5 ∨
      rangeIndex m = 167/100 ∨ rangeIndex m = 87/50 := by
  unfold rangeIndex
  split_ifs <;> tauto

theorem collapseSpTab_id : ∀ l : List Char, hasDoubleSpTab l = false →
    collapseSpTabAux false l = l := by
  intro l
  induction l with
  | nil => intro _; rfl
  | cons c rest ih =>
    intro h
    rw [hasDoubleSpTab] at h
    rcases Bool.or_eq_false_iff.mp h with ⟨hhead, htail⟩
    simp only [collapseSpTabAux]
    by_cases hc : isSpTab c = true
    · rw [if_pos hc]
      rw [hc, Bool.true_and] at hhead
      cases rest with
      | nil => rfl
      | cons d r =>
        rw [headSpTab] at hhead
        show (if isSpTab d = true then ' ' :: collapseSpTabAux true (d :: r)
              else c :: collapseSpTabAux false (d :: r)) = c :: d :: r
        rw [if_neg (by simp [hhead]), ih htail]
    · rw [if_neg hc, ih htail]

theorem stripSpTabBeforeNl_id : ∀ l : List Char, hasDoubleSpTab l = false →
    hasSpTabBeforeNl l = false → stripSpTabBeforeNl l = l := by
  intro l
  induction l with
  | nil => intro _ _; rfl
  | cons c rest ih =>
    intro hd hb
    rw [hasDoubleSpTab] at hd
    rw [hasSpTabBeforeNl] at hb
    rcases Bool.or_eq_false_iff.mp hd with ⟨hd1, hd2⟩
    rcases Bool.or_eq_false_iff.mp hb with ⟨hb1, hb2⟩
    have hnext : (isSpTab c && nextIsNl rest) = false := by
      by_cases hc : isSpTab c = true
      · rw [hc, Bool.true_and] at hd1 hb1 ⊢
        cases rest with
        | nil => rfl
        | cons d r =>
          rw [headSpTab] at hd1
          rw [headNl] at hb1
          rw [nextIsNl, if_neg (of_decide_eq_false hb1)]
          simp only [hd1, Bool.false_eq_true, if_false]
      · rw [Bool.not_eq_true] at hc
        rw [hc, Bool.false_and]
    rw [stripSpTabBeforeNl, hnext]
    simp only [Bool.false_eq_true, if_false]
    rw [ih hd2 hb2]

theorem leadingNl_le : ∀ l : List Char, hasNlRun4 l = false → leadingNl l ≤ 3 := by
  intro l
  induction l with
  | nil => intro _; simp [leadingNl]
  | cons c rest ih =>
    intro h
    rw [hasNlRun4] at h
    rcases Bool.or_eq_false_iff.mp h with ⟨h1, h2⟩
    rw [leadingNl]
    by_cases hc : c = '\n'
    · rw [if_pos hc]
      rw [decide_eq_true hc, Bool.true_and] at h1
      have hlead : leadingNl rest ≤ 2 := by
        match rest with
        | [] => simp [leadingNl]
        | [a] => simp only [leadingNl]; split_ifs <;> simp [leadingNl]
        | [a, b] => simp only [leadingNl]; split_ifs <;> simp [leadingNl]
        | a :: b :: d :: r =>
          rw [startsWith3Nl] at h1
          simp only [leadingNl]
          by_cases ha : a = '\n'
          · by_cases hbn : b = '\n'
            · by_cases hdn : d = '\n'
              · rw [decide_eq_true ha, decide_eq_true hbn, decide_eq_true hdn] at h1
                simp at h1
              · rw [if_pos ha, if_pos hbn, if_neg hdn]
            · rw [if_pos ha, if_neg hbn]
              omega
          · rw [if_neg ha]
            omega
      omega
    · rw [if_neg hc]
      omega

theorem capNlAux_id : ∀ (l : List Char) (k : Nat), hasNlRun4 l = false →
    k + leadingNl l ≤ 3 → capNlAux k l = l := by
  intro l
  induction l with
  | nil => intro _ _ _; rfl
  | cons c rest ih =>
    intro k h hk
    rw [hasNlRun4] at h
    rcases Bool.or_eq_false_iff.mp h with ⟨_, h2⟩
    rw [leadingNl] at hk
    rw [capNlAux]
    by_cases hc : c = '\n'
    · rw [if_pos hc]
      rw [if_pos hc] at hk
      rw [if_pos (by omega : k < 3)]
      rw [ih (k + 1) h2 (by omega)]
    · rw [if_neg hc]
      rw [ih 0 h2 (by simpa using leadingNl_le rest h2)]

theorem mem_dropWhile_of_not {p : Char → Bool} {c : Char} :
    ∀ l : List Char, c ∈ l → p c = false → c ∈ l.dropWhile p := by
  intro l
  induction l with
  | nil => intro hc _; cases hc
  | cons a r ih =>
    intro hc hp
    rw [List.dropWhile_cons]
    by_cases ha : p a = true
    · rw [if_pos ha]
      rcases List.mem_cons.mp hc with rfl | hr
      · rw [hp] at ha; cases ha
      · exact ih hr hp
    · rw [if_neg ha]
      exact hc

theorem mem_trimChars {c : Char} {l : List Char} (hc : c ∈ l) (hw : jsWs c = false) :
    c ∈ trimChars l := by
  unfold trimChars
  exact List.mem_reverse.mpr
    (mem_dropWhile_of_not _ (List.mem_reverse.mpr (mem_dropWhile_of_not _ hc hw)) hw)

theorem arabic_not_jsWs {c : Char} (h : isArabicChar c = true) : jsWs c = false := by
  simp only [isArabicChar, decide_eq_true_eq] at h
  simp only [jsWs, decide_eq_false_iff_not]
  omega

/-! ## Claim theorems -/

/-- Claim C1, counterexample: for the input text
`"SPH -2.50 CYL -1.25 AXE 180"` the parser does return
`{sph: -2.5, cyl: -1.25, axis: 180}`, but the recommendation engine (no
stated needs) returns index 1.60, not the claimed 1.56: the larger
principal power 3.75 exceeds the 1.56 band bound 3.5. -/
theorem claim_C1_counterexample :
    parsePrescription "SPH -2.50 CYL -1.25 AXE 180" =
      some ⟨some (-5/2), some (-5/4), some 180⟩ ∧
    (recommendFromInputs (parsePrescription "SPH -2.50 CYL -1.25 AXE 180")
      [] none).recommendedIndex = some (8/5) ∧
    (8/5 : ℚ) ≠ 39/25 := by
  with_unfolding_all decide

/-- Claim C1, amended: for `"SPH -2.50 CYL -1.25 AXE 180"` the parser
yields `{sph: -2.5, cyl: -1.25, axis: 180}`, the principal meridian powers
are 2.5 and 3.75, and the recommendation engine with no stated needs
returns index 1.60 (3.75 lies in the `≤ 6` band). -/
theorem claim_C1_amended :
    parsePrescription "SPH -2.50 CYL -1.25 AXE 180" =
      some ⟨some (-5/2), some (-5/4), some 180⟩ ∧
    |(-5/2 : ℚ)| = 5/2 ∧ |(-5/2 : ℚ) + (-5/4)| = 15/4 ∧
    (recommendFromInputs (parsePrescription "SPH -2.50 CYL -1.25 AXE 180")
      [] none).recommendedIndex = some (8/5) := by
  with_unfolding_all decide

/-- Claim C2, counterexample: with `cyl = -4` fixed, increasing `|sph|`
from 1 to 2 lowers the chosen index from 1.67 to 1.60, so the index is not
monotone in `|sph|` for fixed `cyl`. -/
theorem claim_C2_counterexample :
    (recommendFromInputs (some ⟨some 1, some (-4), none⟩) [] none).recommendedIndex =
      some (167/100) ∧
    (recommendFromInputs (some ⟨some 2, some (-4), none⟩) [] none).recommendedIndex =
      some (8/5) ∧
    |(1 : ℚ)| ≤ |(2 : ℚ)| ∧ ¬((167/100 : ℚ) ≤ 8/5) := by
  with_unfolding_all decide

/-- Claim C2, amended: for fixed `cyl`, increasing `|sph|` never decreases
the chosen index provided `sph` and `cyl` do not have opposite signs
(`0 ≤ sph * cyl` for both sphere values); the cylinder-driven bump
(applied exactly when `|cyl| ≥ 2`) preserves this monotonicity. -/
theorem claim_C2_amended (s1 s2 c : ℚ) (h1 : 0 ≤ s1 * c) (h2 : 0 ≤ s2 * c)
    (hle : |s1| ≤ |s2|) :
    ∃ i1 i2,
      (recommendFromInputs (some ⟨some s1, some c, none⟩) [] none).recommendedIndex =
        some i1 ∧
      (recommendFromInputs (some ⟨some s2, some c, none⟩) [] none).recommendedIndex =
        some i2 ∧
      i1 ≤ i2 := by
  refine ⟨_, _, recommend_index_eq s1 c none [] none,
    recommend_index_eq s2 c none [] none, ?_⟩
  have hm : max |s1| |s1 + c| ≤ max |s2| |s2 + c| := by
    rw [maxPower_same_sign h1, maxPower_same_sign h2]
    linarith
  by_cases hc : 2 ≤ |c|
  · simp only [if_pos hc]
    exact bump64_mono5 _ (rangeIndex_mem5 _) _ (rangeIndex_mem5 _) (rangeIndex_mono hm)
  · simp only [if_neg hc]
    exact rangeIndex_mono hm

/-- Claim C2, witness: the amended monotonicity at `sph = -1, -3`,
`cyl = -1`. -/
theorem claim_C2_witness :
    0 ≤ (-1 : ℚ) * (-1) ∧ 0 ≤ (-3 : ℚ) * (-1) ∧ |(-1 : ℚ)| ≤ |(-3 : ℚ)| ∧
    (∃ i1 i2,
      (recommendFromInputs (some ⟨some (-1), some (-1), none⟩) [] none).recommendedIndex =
        some i1 ∧
      (recommendFromInputs (some ⟨some (-3), some (-1), none⟩) [] none).recommendedIndex =
        some i2 ∧
      i1 ≤ i2) :=
  have h1 : 0 ≤ (-1 : ℚ) * (-1) := by with_unfolding_all decide
  have h2 : 0 ≤ (-3 : ℚ) * (-1) := by with_unfolding_all decide
  have h3 : |(-1 : ℚ)| ≤ |(-3 : ℚ)| := by with_unfolding_all decide
  ⟨h1, h2, h3, claim_C2_amended (-1) (-3) (-1) h1 h2 h3⟩

/-- Claim C3, counterexample: for `sph = 0, cyl = -3` the unbumped index
is 1.56 (max power 3), yet the cylinder bump returns 1.67, two standard
steps above 1.56 and skipping the intermediate standard index 1.60 — the
bump does not go to the next usable standard index and does skip a
boundary. -/
theorem claim_C3_counterexample :
    (recommendFromInputs (some ⟨some 0, some (-3), none⟩) [] none).recommendedIndex =
      some (167/100) ∧
    rangeIndex (max |(0 : ℚ)| |(0 : ℚ) + (-3)|) = 39/25 ∧
    stepPos (167/100) = stepPos (39/25) + 2 := by
  with_unfolding_all decide

/-- Claim C3, amended: whenever `|cyl| ≥ 2`, the recommended index equals
the binary64 bump `clampIndex(rangeIndex(maxPower) + 0.07)` (`bump64`);
the bump never lowers the index and lands at most two standard steps above
the unbumped index, but it can skip an intermediate standard index: 1.56
bumps to 1.67 skipping 1.60, and — because `1.6 + 0.07` exceeds the
binary64 value of `1.67` — 1.6 bumps to 1.74 skipping 1.67. -/
theorem claim_C3_amended (s c : ℚ) (hc : 2 ≤ |c|) :
    (recommendFromInputs (some ⟨some s, some c, none⟩) [] none).recommendedIndex =
      some (bump64 (rangeIndex (max |s| |s + c|))) ∧
    rangeIndex (max |s| |s + c|) ≤ bump64 (rangeIndex (max |s| |s + c|)) ∧
    stepPos (bump64 (rangeIndex (max |s| |s + c|))) ≤
      stepPos (rangeIndex (max |s| |s + c|)) + 2 := by
  refine ⟨by rw [recommend_index_eq s c none [] none, if_pos hc], ?_, ?_⟩ <;>
    rcases rangeIndex_cases (max |s| |s + c|) with h | h | h | h | h <;>
      rw [h] <;> with_unfolding_all decide

/-- Claim C3, witness: the amended bump description at `sph = 0, cyl = 2`. -/
theorem claim_C3_witness :
    2 ≤ |(2 : ℚ)| ∧
    (recommendFromInputs (some ⟨some 0, some 2, none⟩) [] none).recommendedIndex =
      some (bump64 (rangeIndex (max |(0 : ℚ)| |(0 : ℚ) + 2|))) :=
  have h : 2 ≤ |(2 : ℚ)| := by with_unfolding_all decide
  ⟨h, (claim_C3_amended 0 2 h).1⟩

/-- Claim C4: the claim that an ownership mismatch leaves the stored
message unchanged is right about the intended behaviour but wrong about the
code: both handlers mutate first and check ownership afterwards.  Editing
message `m1` of chat `A` through chat id `B` returns the mismatch error yet
leaves the content updated, and deleting it through chat id `B` returns the
mismatch error yet removes the row. -/
theorem claim_C4_bug :
    patchMessage [⟨"m1", "A", .user, "hello"⟩] "B" "m1" "edited" =
      (.mismatch, [⟨"m1", "A", .user, "edited"⟩]) ∧
    deleteMessage [⟨"m1", "A", .user, "hello"⟩] "B" "m1" = (.mismatch, []) ∧
    ([⟨"m1", "A", .user, "edited"⟩] : List MsgRec) ≠ [⟨"m1", "A", .user, "hello"⟩] := by
  with_unfolding_all decide

/-- Claim C5: the history sent to the provider is claimed to be the newest
persisted non-system messages, but the route fetches the oldest 14 rows
(ascending order with a positive take) and then keeps the last 12 of those;
for a session with fifteen persisted messages the newest message is
excluded, although the spec-described history contains it. -/
theorem claim_C5_bug :
    historySentForSession fifteenUserMsgs ≠
      lastN 12 (fifteenUserMsgs.filter (fun m => m.role ≠ .system)) ∧
    (⟨.user, toString 14⟩ : StoredMsg) ∈ fifteenUserMsgs ∧
    (⟨.user, toString 14⟩ : StoredMsg) ∈
      lastN 12 (fifteenUserMsgs.filter (fun m => m.role ≠ .system)) ∧
    (⟨.user, toString 14⟩ : StoredMsg) ∉ historySentForSession fifteenUserMsgs := by
  with_unfolding_all decide

/-- Claim C6, counterexample: the streaming chunk cleaner does not
preserve fragment whitespace exactly: the fragment `"a␣␣b"` (two internal
spaces) is returned as `"a␣b"` because the chunk pipeline ends with
whitespace normalization. -/
theorem claim_C6_counterexample :
    postProcessAssistantChunk "a  b" .fr = "a b" ∧ ("a b" : String) ≠ "a  b" := by
  with_unfolding_all decide

/-- Claim C6, amended: the streaming cleaner is token removal and script
stripping followed by whitespace normalization; the normalization collapses
runs of two or more spaces/tabs, deletes spaces/tabs sitting before a
newline and caps newline runs at three, and is the identity exactly on
fragments already free of those patterns — so fragment whitespace
(internal, leading and trailing) is preserved only for such fragments. -/
theorem claim_C6_amended :
    (∀ (s : String) (lang : SupportedLanguage),
      postProcessAssistantChunk s lang =
        normalizeWhitespaceAfterFiltering
          (filterDisallowedScriptsByLanguage (sanitizeAssistantChunk s) lang)) ∧
    (∀ t : String, wsNormalized t → normalizeWhitespaceAfterFiltering t = t) := by
  constructor
  · intro s lang; rfl
  · intro t ht
    obtain ⟨h1, h2, h3⟩ := ht
    obtain ⟨l⟩ := t
    show (⟨capNlAux 0 (stripSpTabBeforeNl (collapseSpTabAux false l))⟩ : String) = ⟨l⟩
    rw [collapseSpTab_id l h1, stripSpTabBeforeNl_id l h1 h2,
      capNlAux_id l 0 h3 (by simpa using leadingNl_le l h3)]

/-- Claim C6, witness: the normalization pass is the identity on the
already-normalized fragment `"ab\ncd"`. -/
theorem claim_C6_witness :
    wsNormalized "ab\ncd" ∧ normalizeWhitespaceAfterFiltering "ab\ncd" = "ab\ncd" :=
  have h : wsNormalized "ab\ncd" :=
    ⟨by with_unfolding_all decide, by with_unfolding_all decide,
     by with_unfolding_all decide⟩
  ⟨h, claim_C6_amended.2 "ab\ncd" h⟩

/-- Claim C7, counterexample: the turn `"stock ?"` is answered by the
deterministic availability short-circuit and performs no memory upsert at
all — in particular the global language fact is not upserted on that
processed turn. -/
theorem claim_C7_counterexample :
    getAvailabilityQuestionType "stock ?" = some .availability ∧
    (turnEffects (some "c1") "stock ?" .fr).all (fun e => !isMemUpsert e) = true := by
  with_unfolding_all decide

/-- Claim C7, amended: on every generative (non-short-circuit) turn the
global language fact is upserted with the turn's effective language and a
chat-scoped prescription fact is upserted when a prescription was parsed;
turns answered by the availability/quantity short-circuit perform no memory
upsert. -/
theorem claim_C7_amended (cid : Option String) (text : String) (lang : SupportedLanguage) :
    (getAvailabilityQuestionType text = none →
      DbEffect.upsertMemory "global" "lastLanguage" (.langVal (langCode lang)) ∈
        turnEffects cid text lang ∧
      ∀ p, parsePrescription text = some p →
        DbEffect.upsertMemory ("chat:" ++ cid.getD "new-session") "prescription" (.presVal p) ∈
          turnEffects cid text lang) ∧
    (∀ q, getAvailabilityQuestionType text = some q →
      (turnEffects cid text lang).all (fun e => !isMemUpsert e) = true) := by
  constructor
  · intro h
    constructor
    · unfold turnEffects
      rw [h]
      cases cid <;> simp
    · intro p hp
      unfold turnEffects
      rw [h, hp]
      cases cid <;> simp
  · intro q h
    unfold turnEffects
    rw [h]
    cases cid <;> simp [isMemUpsert]

/-- Claim C7, witness: the generative turn `"bonjour"` upserts the global
language fact. -/
theorem claim_C7_witness :
    getAvailabilityQuestionType "bonjour" = none ∧
    DbEffect.upsertMemory "global" "lastLanguage" (.langVal (langCode .fr)) ∈
      turnEffects (some "c1") "bonjour" .fr :=
  have h : getAvailabilityQuestionType "bonjour" = none := by
    with_unfolding_all decide
  ⟨h, ((claim_C7_amended (some "c1") "bonjour" .fr).1 h).1⟩

/-- Claim C8: every input containing an Arabic-script code point is
classified `ar` with high confidence, regardless of any other characters
present — trimming removes only whitespace, which is never Arabic script,
so the Arabic-script branch always fires. -/
theorem claim_C8_holds (s : String) (h : ∃ c ∈ s.data, isArabicChar c = true) :
    detectLanguageInfo s = ⟨.ar, .high⟩ := by
  obtain ⟨c, hc, harab⟩ := h
  have hws : jsWs c = false := arabic_not_jsWs harab
  have hmem : c ∈ trimChars s.data := mem_trimChars hc hws
  have hne : trimChars s.data ≠ [] := List.ne_nil_of_mem hmem
  have hany : (trimChars s.data).any isArabicChar = true :=
    List.any_eq_true.mpr ⟨c, hmem, harab⟩
  unfold detectLanguageInfo detectCore
  rw [if_neg hne, if_pos hany]

/-- Claim C8, witness: the Arabic greeting is classified `ar`/high. -/
theorem claim_C8_witness :
    (∃ c ∈ ("سلام" : String).data, isArabicChar c = true) ∧
      detectLanguageInfo "سلام" = ⟨.ar, .high⟩ :=
  have h : ∃ c ∈ ("سلام" : String).data, isArabicChar c = true := by
    with_unfolding_all decide
  ⟨h, claim_C8_holds "سلام" h⟩

/-- Claim C9: for every prescription, needs list and budget tier, the
recommendation with the budget tier agrees with the recommendation without
one on the index, coatings and both want-flags, and its rationale is the
budget-free rationale plus only the budget's advisory note. -/
theorem claim_C9_holds (p : Option Prescription) (needs : List VisualNeed) (b : Budget) :
    (recommendFromInputs p needs (some b)).recommendedIndex =
      (recommendFromInputs p needs none).recommendedIndex ∧
    (recommendFromInputs p needs (some b)).coatings =
      (recommendFromInputs p needs none).coatings ∧
    (recommendFromInputs p needs (some b)).wantBlueCut =
      (recommendFromInputs p needs none).wantBlueCut ∧
    (recommendFromInputs p needs (some b)).wantPhotochromic =
      (recommendFromInputs p needs none).wantPhotochromic ∧
    (recommendFromInputs p needs (some b)).rationale =
      (recommendFromInputs p needs none).rationale ++ budgetNote (some b) := by
  refine ⟨rfl, rfl, rfl, rfl, ?_⟩
  cases b <;> simp [recommendFromInputs, budgetNote]

/-- Claim C10: the detector is total — it always returns one of the four
supported languages — and any input whose characters are all whitespace
(the empty string included) yields `fr` with low confidence. -/
theorem claim_C10_holds (s : String) :
    ((detectLanguageInfo s).lang = .fr ∨ (detectLanguageInfo s).lang = .en ∨
      (detectLanguageInfo s).lang = .ar ∨ (detectLanguageInfo s).lang = .dz) ∧
    ((∀ c ∈ s.data, jsWs c = true) → detectLanguageInfo s = ⟨.fr, .low⟩) := by
  constructor
  · cases h : (detectLanguageInfo s).lang <;> tauto
  · intro hws
    have h1 : s.data.dropWhile jsWs = [] :=
      List.dropWhile_eq_nil_iff.mpr (fun x hx => hws x hx)
    have h2 : trimChars s.data = [] := by
      unfold trimChars
      rw [h1]
      rfl
    unfold detectLanguageInfo
    rw [h2]
    rfl

/-- Claim C10, witness: the two-space input is whitespace-only and yields
`fr` with low confidence. -/
theorem claim_C10_witness :
    (∀ c ∈ ("  " : String).data, jsWs c = true) ∧
      detectLanguageInfo "  " = ⟨.fr, .low⟩ :=
  have h : ∀ c ∈ ("  " : String).data, jsWs c = true := by with_unfolding_all decide
  ⟨h, (claim_C10_holds "  ").2 h⟩
